import Mathlib

/-!
A shallow embedding of SourceWeaver (src/main.rs), a tool that walks a
directory tree, filters the entries (ignore rules, the output file itself,
a fixed set of lock files) and renders every remaining file as a Markdown
section: a header naming the relative path followed by a fenced code block
holding the file's text content, a binary placeholder, or a read-error
placeholder.

External collaborators (the `ignore` walker, the `content_inspector`
classifier, the clipboard, the filesystem) are modelled as explicit inputs:
the walker's candidate entries become a list, the classifier is modelled
from its spec contract, and read results are carried on each entry.
-/

namespace SourceWeaver

/-- The fixed set of dependency lock-file basenames (`LOCK_FILES` in
src/main.rs). -/
def LOCK_FILES : List String :=
  ["Cargo.lock", "package-lock.json", "yarn.lock", "poetry.lock",
   "Gemfile.lock", "composer.lock", "Pipfile.lock", "go.sum", "flake.lock"]

/-- Split a character list at every occurrence of `sep`, keeping empty
pieces (the splitting underlying Rust `str::split`). -/
def splitOnChar (sep : Char) : List Char → List (List Char)
  | [] => [[]]
  | c :: cs =>
    if c = sep then [] :: splitOnChar sep cs
    else
      match splitOnChar sep cs with
      | [] => [[c]]
      | l :: ls => (c :: l) :: ls

/-- Strip a single trailing carriage return, as Rust `str::lines` does to
every newline-terminated line. -/
def stripTrailingCR (l : List Char) : List Char :=
  if l.getLast? = some '\r' then l.dropLast else l

/-- The per-piece treatment of Rust `str::lines` (Rust 1.60 and later, as
required by the program's clap 4 dependency), applied to the pieces of a
newline split: every piece but the last was terminated by a newline and
has one trailing carriage return stripped; the final piece was not
newline-terminated, so a trailing carriage return of it is kept, and it is
dropped when empty (the final line terminator is optional). -/
def linesMap : List (List Char) → List (List Char)
  | [] => []
  | [p] => if p = [] then [] else [p]
  | p :: q :: rest => stripTrailingCR p :: linesMap (q :: rest)

/-- Rust `str::lines` (1.60 semantics): split at newline characters, strip
one carriage return preceding each stripped newline, keep a lone trailing
carriage return of an unterminated final line, and drop the empty piece
after a final newline. -/
def rustLines (s : String) : List String :=
  (linesMap (splitOnChar '\n' s.data)).map String.mk

/-- Re-emit lines the way the text branch of `process_file` does: each line
followed by a single `'\n'` (Rust `writeln!`). -/
def emitLines (ls : List String) : String :=
  String.join (ls.map (fun l => l ++ "\n"))

/-- Content classification verdict (only the binary/non-binary distinction
is consumed by src/main.rs). -/
inductive ContentType where
  | BINARY
  | TEXT
deriving DecidableEq

/-- Modelled from the spec: the content inspection collaborator (the
external `content_inspector` crate, absent from src/). Per the spec its
contract is a deterministic heuristic byte-prefix inspection, e.g. presence
of null bytes in a byte prefix means binary; a file with zero bytes is
treated as text. -/
def inspect (content : List UInt8) : ContentType :=
  if (content.take 1024).contains 0 then ContentType.BINARY else ContentType.TEXT

/-- Is `b` a UTF-8 continuation byte (0x80..0xBF)? -/
def isCont (b : UInt8) : Bool :=
  decide (0x80 ≤ b.toNat ∧ b.toNat ≤ 0xBF)

/-- Valid range for the second byte of a multi-byte UTF-8 sequence with
lead byte `b1` (the constrained ranges of RFC 3629, as enforced by Rust's
`std` UTF-8 validation). -/
def validSecond (b1 b2 : UInt8) : Bool :=
  if b1.toNat = 0xE0 then decide (0xA0 ≤ b2.toNat ∧ b2.toNat ≤ 0xBF)
  else if b1.toNat = 0xED then decide (0x80 ≤ b2.toNat ∧ b2.toNat ≤ 0x9F)
  else if b1.toNat = 0xF0 then decide (0x90 ≤ b2.toNat ∧ b2.toNat ≤ 0xBF)
  else if b1.toNat = 0xF4 then decide (0x80 ≤ b2.toNat ∧ b2.toNat ≤ 0x8F)
  else isCont b2

/-- Scalar value of a two-byte UTF-8 sequence. -/
def char2 (b1 b2 : UInt8) : Char :=
  Char.ofNat ((b1.toNat - 0xC0) * 64 + (b2.toNat - 0x80))

/-- Scalar value of a three-byte UTF-8 sequence. -/
def char3 (b1 b2 b3 : UInt8) : Char :=
  Char.ofNat ((b1.toNat - 0xE0) * 4096 + (b2.toNat - 0x80) * 64 + (b3.toNat - 0x80))

/-- Scalar value of a four-byte UTF-8 sequence. -/
def char4 (b1 b2 b3 b4 : UInt8) : Char :=
  Char.ofNat ((b1.toNat - 0xF0) * 262144 + (b2.toNat - 0x80) * 4096
    + (b3.toNat - 0x80) * 64 + (b4.toNat - 0x80))

/-- Strict UTF-8 decoding of a byte list (Rust `String::from_utf8`):
`none` exactly when the bytes are not valid UTF-8. -/
def utf8DecodeChars : List UInt8 → Option (List Char)
  | [] => some []
  | b1 :: rest =>
    if b1.toNat ≤ 0x7F then
      (utf8DecodeChars rest).map (fun cs => Char.ofNat b1.toNat :: cs)
    else if 0xC2 ≤ b1.toNat ∧ b1.toNat ≤ 0xDF then
      match rest with
      | b2 :: rest2 =>
        if isCont b2 then (utf8DecodeChars rest2).map (fun cs => char2 b1 b2 :: cs)
        else none
      | [] => none
    else if 0xE0 ≤ b1.toNat ∧ b1.toNat ≤ 0xEF then
      match rest with
      | b2 :: b3 :: rest3 =>
        if validSecond b1 b2 && isCont b3 then
          (utf8DecodeChars rest3).map (fun cs => char3 b1 b2 b3 :: cs)
        else none
      | _ => none
    else if 0xF0 ≤ b1.toNat ∧ b1.toNat ≤ 0xF4 then
      match rest with
      | b2 :: b3 :: b4 :: rest4 =>
        if validSecond b1 b2 && isCont b3 && isCont b4 then
          (utf8DecodeChars rest4).map (fun cs => char4 b1 b2 b3 b4 :: cs)
        else none
      | _ => none
    else none

/-- Rust `String::from_utf8` on a byte buffer, as a `String`. -/
def utf8DecodeString (bytes : List UInt8) : Option String :=
  (utf8DecodeChars bytes).map String.mk

/-- The Unicode replacement character emitted by lossy decoding. -/
def replacementChar : Char := Char.ofNat 0xFFFD

/-- Lossy UTF-8 decoding (Rust `String::from_utf8_lossy`): each maximal
invalid subpart is replaced by the replacement character and decoding
resumes at the next byte after the offending subpart. -/
def utf8LossyChars : List UInt8 → List Char
  | [] => []
  | b1 :: rest =>
    if b1.toNat ≤ 0x7F then Char.ofNat b1.toNat :: utf8LossyChars rest
    else if 0xC2 ≤ b1.toNat ∧ b1.toNat ≤ 0xDF then
      match rest with
      | b2 :: rest2 =>
        if isCont b2 then char2 b1 b2 :: utf8LossyChars rest2
        else replacementChar :: utf8LossyChars (b2 :: rest2)
      | [] => [replacementChar]
    else if 0xE0 ≤ b1.toNat ∧ b1.toNat ≤ 0xEF then
      match rest with
      | b2 :: rest2 =>
        if validSecond b1 b2 then
          match rest2 with
          | b3 :: rest3 =>
            if isCont b3 then char3 b1 b2 b3 :: utf8LossyChars rest3
            else replacementChar :: utf8LossyChars (b3 :: rest3)
          | [] => [replacementChar]
        else replacementChar :: utf8LossyChars (b2 :: rest2)
      | [] => [replacementChar]
    else if 0xF0 ≤ b1.toNat ∧ b1.toNat ≤ 0xF4 then
      match rest with
      | b2 :: rest2 =>
        if validSecond b1 b2 then
          match rest2 with
          | b3 :: rest3 =>
            if isCont b3 then
              match rest3 with
              | b4 :: rest4 =>
                if isCont b4 then char4 b1 b2 b3 b4 :: utf8LossyChars rest4
                else replacementChar :: utf8LossyChars (b4 :: rest4)
              | [] => [replacementChar]
            else replacementChar :: utf8LossyChars (b3 :: rest3)
          | [] => [replacementChar]
        else replacementChar :: utf8LossyChars (b2 :: rest2)
      | [] => [replacementChar]
    else replacementChar :: utf8LossyChars rest

/-- Rust `String::from_utf8_lossy` as a `String`. -/
def fromUtf8Lossy (bytes : List UInt8) : String :=
  String.mk (utf8LossyChars bytes)

/-- Characters after the last dot of a character list, `none` when there is
no dot. -/
def afterLastDot : List Char → Option (List Char)
  | [] => none
  | c :: cs =>
    match afterLastDot cs with
    | some suf => some suf
    | none => if c = '.' then some cs else none

/-- Rust `Path::extension` on a path rendered as a string: take the final
path component; the extension is the portion after its last dot, except
that a name of `".."`, a name with no dot, or a name whose only dot is its
leading character has no extension. -/
def extensionOf (path : String) : Option String :=
  let name := ((splitOnChar '/' path.data).getLast?).getD []
  if name = ['.', '.'] then none
  else
    match name with
    | [] => none
    | _ :: restOfName => (afterLastDot restOfName).map String.mk

/-- The lowercased-extension table of `get_language_tag` (the `match` in
src/main.rs lines 244-288). -/
def langOfLowerExt (ext : String) : String :=
  match ext with
  | "rs" => "rust"
  | "py" | "pyw" => "python"
  | "js" | "mjs" | "cjs" => "javascript"
  | "ts" | "mts" | "cts" => "typescript"
  | "java" => "java"
  | "c" | "h" => "c"
  | "cpp" | "hpp" | "cxx" | "hxx" | "cc" | "hh" => "cpp"
  | "cs" => "csharp"
  | "go" => "go"
  | "php" => "php"
  | "rb" => "ruby"
  | "swift" => "swift"
  | "kt" | "kts" => "kotlin"
  | "scala" => "scala"
  | "pl" => "perl"
  | "sh" | "bash" | "zsh" => "bash"
  | "ps1" => "powershell"
  | "html" | "htm" => "html"
  | "css" => "css"
  | "scss" | "sass" => "scss"
  | "less" => "less"
  | "json" => "json"
  | "yaml" | "yml" => "yaml"
  | "toml" => "toml"
  | "md" | "markdown" => "markdown"
  | "sql" => "sql"
  | "xml" => "xml"
  | "dockerfile" | "containerfile" => "dockerfile"
  | "nix" => "nix"
  | "lua" => "lua"
  | "r" => "r"
  | "dart" => "dart"
  | "ex" | "exs" => "elixir"
  | "erl" | "hrl" => "erlang"
  | "hs" => "haskell"
  | "clj" | "cljs" | "cljc" | "edn" => "clojure"
  | "groovy" | "gradle" => "groovy"
  | "tf" => "terraform"
  | "vue" => "vue"
  | "svelte" => "svelte"
  | "tex" => "latex"
  | "zig" => "zig"
  | _ => ""

/-- Rust `str::to_lowercase` restricted to the inputs the tag table can
ever match (ASCII): lowercase every character. -/
def rustToLowercase (s : String) : String :=
  String.mk (s.data.map Char.toLower)

/-- The `Option::map`/`unwrap_or` part of `get_language_tag`: a present
extension is lowercased and looked up in the table, an absent extension
yields the empty tag. -/
def tagOfExt (ext : Option String) : String :=
  (ext.map (fun e => langOfLowerExt (rustToLowercase e))).getD ""

/-- Function `get_language_tag` (src/main.rs lines 241-290): extension of the path,
lowercased, looked up in the fixed table; the empty tag when the extension
is absent or unknown. -/
def get_language_tag (path : String) : String :=
  tagOfExt (extensionOf path)

/-- All extensions the table of `get_language_tag` recognizes (the literal
patterns of its `match`, which are all lowercase). -/
def knownExtensions : List String :=
  ["rs", "py", "pyw", "js", "mjs", "cjs", "ts", "mts", "cts", "java",
   "c", "h", "cpp", "hpp", "cxx", "hxx", "cc", "hh", "cs", "go", "php",
   "rb", "swift", "kt", "kts", "scala", "pl", "sh", "bash", "zsh", "ps1",
   "html", "htm", "css", "scss", "sass", "less", "json", "yaml", "yml",
   "toml", "md", "markdown", "sql", "xml", "dockerfile", "containerfile",
   "nix", "lua", "r", "dart", "ex", "exs", "erl", "hrl", "hs", "clj",
   "cljs", "cljc", "edn", "groovy", "gradle", "tf", "vue", "svelte",
   "tex", "zig"]

/-- Helper for concrete test inputs: the UTF-8 bytes of an ASCII string. -/
def asciiBytes (s : String) : List UInt8 :=
  s.data.map (fun c => UInt8.ofNat c.toNat)

/-- Outcome of `fs::read` on a file's physical path. -/
inductive ReadResult where
  | ok (content : List UInt8)
  | err (msg : String)
deriving DecidableEq

/-- Function `process_file` (src/main.rs lines 206-239): emit the section header
naming the relative path, then a fenced block holding the binary
placeholder, the text content line by line, or the read-error placeholder.
Returns the bytes written to the document and the diagnostics written to
the side channel (stderr). -/
def process_file (relativePath : String) (fullPath : String) (read : ReadResult) :
    String × List String :=
  let header := "\n## `" ++ relativePath ++ "`\n\n"
  match read with
  | ReadResult.ok content =>
    if inspect content = ContentType.BINARY then
      (header ++ "```\n(Binary file, content omitted)\n```\n", [])
    else
      let contentStr := fromUtf8Lossy content
      let lang := get_language_tag relativePath
      (header ++ "```" ++ lang ++ "\n" ++ emitLines (rustLines contentStr) ++ "```\n", [])
  | ReadResult.err e =>
    (header ++ "```\n(Error reading file: " ++ e ++ ")\n```\n",
     ["Warning: Failed to read file " ++ fullPath ++ ": " ++ e])

/-- Filesystem entry kind, as reported by `DirEntry::file_type`. -/
inductive FileType where
  | file
  | dir
  | symlink
  | other
deriving DecidableEq

/-- Rust `FileType::is_file`. -/
def FileType.is_file : FileType → Bool
  | FileType.file => true
  | _ => false

/-- A traversal entry as observed by the filter predicate and the main
loop: its path, the result of `fs::canonicalize` on that path (`none` when
canonicalization fails), its `file_type()` (`none` for entries without
one), its basename as UTF-8 (`none` when the OS name is not valid UTF-8,
mirroring `OsStr::to_str`), and the outcome `fs::read` would give when the
entry is processed. -/
structure Entry where
  path : String
  canonical : Option String
  fileType : Option FileType
  fileNameStr : Option String
  readResult : ReadResult
deriving DecidableEq

/-- Filter 1 of the `filter_entry` closure (src/main.rs lines 150-159):
the entry matches the output file when an output path is being filtered,
the entry's path canonicalizes successfully, and the canonical paths are
equal. Canonicalization failure means no match. -/
def matchesOutputFile (output_path_for_filter : Option String) (entry : Entry) : Bool :=
  match output_path_for_filter with
  | some outputPathToCheck =>
    match entry.canonical with
    | some entryPathCanonical => entryPathCanonical == outputPathToCheck
    | none => false
  | none => false

/-- Filter 2 of the `filter_entry` closure (src/main.rs lines 161-170):
the entry matches when its file type reports a regular file and its
basename, when valid UTF-8, is in the lock-file set. -/
def matchesLockFile (entry : Entry) : Bool :=
  if (entry.fileType.map FileType.is_file).getD false then
    match entry.fileNameStr with
    | some fileName => LOCK_FILES.contains fileName
    | none => false
  else false

/-- The `filter_entry` closure passed to the walker (src/main.rs lines
149-175): reject the output file, then reject lock files, otherwise
include. -/
def filter_entry (output_path_for_filter : Option String) (entry : Entry) : Bool :=
  if matchesOutputFile output_path_for_filter entry then false
  else if matchesLockFile entry then false
  else true

/-- An item yielded by the walker: an entry or a per-entry enumeration
error message. -/
abbrev WalkItem := Except String Entry

/-- The directory-walker collaborator (the `ignore` crate's `WalkBuilder`
with the configured ignore toggles): of the candidate filesystem items, it
yields, in order, exactly those whose entries pass both the ignore policy
(ignore files plus the hidden toggle, abstracted as a predicate) and the
`filter_entry` predicate; error items pass through on the error channel. -/
def walkerYield (ignorePolicy : Entry → Bool) (output_path_for_filter : Option String)
    (candidates : List WalkItem) : List WalkItem :=
  candidates.filter (fun item =>
    match item with
    | Except.error _ => true
    | Except.ok e => ignorePolicy e && filter_entry output_path_for_filter e)

/-- Rust `Path::strip_prefix(root)` on string-rendered paths: removing the
root itself yields the empty relative path, removing a proper prefix
`root/` yields the remainder, anything else fails. -/
def stripRoot (root p : String) : Option String :=
  if p = root then some ""
  else
    let rootSlash := root ++ "/"
    if p.data.take rootSlash.data.length = rootSlash.data then
      some (String.mk (p.data.drop rootSlash.data.length))
    else none

/-- The body of the walk loop in `generate_markdown` (src/main.rs lines
178-201) for one yielded item: error items only emit a diagnostic; the
root itself, non-files, and entries with an empty or unobtainable relative
path emit nothing; every other file is rendered by `process_file`. -/
def entryOutput (rootDir : String) (item : WalkItem) : String × List String :=
  match item with
  | Except.error err => ("", ["Error accessing entry: " ++ err])
  | Except.ok entry =>
    if entry.path = rootDir then ("", [])
    else if (entry.fileType.map FileType.is_file).getD false then
      match stripRoot rootDir entry.path with
      | some relativePath =>
        if relativePath = "" then ("", [])
        else process_file relativePath entry.path entry.readResult
      | none => ("", ["Warning: Could not get relative path for " ++ entry.path])
    else ("", [])

/-- Function `generate_markdown` (src/main.rs lines 131-204): build the walker with
the filter predicate over the candidate items and concatenate the output of
the loop body over everything the walker yields. Returns the document
written to the writer and the diagnostics written to stderr. -/
def generate_markdown (ignorePolicy : Entry → Bool) (rootDir : String)
    (output_path_for_filter : Option String) (candidates : List WalkItem) :
    String × List String :=
  let items := walkerYield ignorePolicy output_path_for_filter candidates
  (String.join (items.map (fun it => (entryOutput rootDir it).1)),
   List.flatten (items.map (fun it => (entryOutput rootDir it).2)))

/-- Behaviour of the clipboard collaborator for one run: whether
`Clipboard::new` fails (and with what message), and whether `set_text`
fails (and with what message). -/
structure ClipboardEnv where
  newErr : Option String
  setTextErr : Option String

/-- Outcome of `main`: `ok` or an aborting error. -/
inductive RunResult where
  | ok
  | error (msg : String)
deriving DecidableEq

/-- The clipboard branch of `main` (src/main.rs lines 56-90) as a function
of the generated in-memory buffer: convert the buffer with
`String::from_utf8`, aborting on failure before touching the clipboard;
otherwise initialize the clipboard and hand it the converted string.
Returns the run outcome paired with the list of strings actually handed to
clipboard transport (`set_text`). The source suffixes the UTF-8 error
message with the decoder's error detail; the model keeps the fixed prefix
of that message. -/
def clipboard_branch (env : ClipboardEnv) (buffer : List UInt8) :
    RunResult × List String :=
  match utf8DecodeString buffer with
  | none => (RunResult.error "Generated content is not valid UTF-8", [])
  | some outputString =>
    match env.newErr with
    | some e => (RunResult.error ("Clipboard init error: " ++ e), [])
    | none =>
      match env.setTextErr with
      | some e => (RunResult.error ("Clipboard error: " ++ e), [outputString])
      | none => (RunResult.ok, [outputString])

/-- The number of lines of a rendered string that consist exactly of the
bare fence delimiter three-backtick sequence. A Markdown fenced block is
closed by the first bare delimiter line after its opening fence, so a
section is prematurely terminated when a bare delimiter line occurs before
its own closing fence, i.e. when it holds more than one such line beyond
the untagged opening fence (if any). -/
def bareFenceLineCount (s : String) : Nat :=
  ((splitOnChar '\n' s.data).filter (fun l => l == "```".data)).length

/-- The section shape asserted by the spec's output-format sentence, read
literally: exactly the bytes of a newline, `## `, the relative path, two
newlines, then a fenced block (an opening fence line optionally carrying a
tag, some content, and a closing fence line). -/
def claimedSectionForm (relativePath sectionStr : String) : Prop :=
  ∃ tag body : String,
    sectionStr =
      "\n## " ++ relativePath ++ "\n\n" ++ "```" ++ tag ++ "\n" ++ body ++ "```\n"

/-- Does `pat` occur as a contiguous substring of `s` (on character
lists)? -/
def containsSub (pat s : List Char) : Bool :=
  (List.range (s.length + 1)).any (fun i => (s.drop i).take pat.length == pat)

/-- Root directory of the round-trip scenario. -/
def scenarioRoot : String := "/proj"

/-- The walker candidates of the round-trip scenario: the root directory
itself plus exactly `a.rs` (content `fn main() {}`), `b.png` (bytes
0x00 0x01 0x02) and `Cargo.lock` (content `x`), all canonicalizable, with
no ignore files (the ignore policy passes everything). -/
def scenarioEntries : List WalkItem :=
  [Except.ok { path := "/proj", canonical := some "/proj",
               fileType := some FileType.dir, fileNameStr := some "proj",
               readResult := ReadResult.err "Is a directory" },
   Except.ok { path := "/proj/a.rs", canonical := some "/proj/a.rs",
               fileType := some FileType.file, fileNameStr := some "a.rs",
               readResult := ReadResult.ok (asciiBytes "fn main() {}") },
   Except.ok { path := "/proj/b.png", canonical := some "/proj/b.png",
               fileType := some FileType.file, fileNameStr := some "b.png",
               readResult := ReadResult.ok [0x00, 0x01, 0x02] },
   Except.ok { path := "/proj/Cargo.lock", canonical := some "/proj/Cargo.lock",
               fileType := some FileType.file, fileNameStr := some "Cargo.lock",
               readResult := ReadResult.ok (asciiBytes "x") }]

/-! ## Helper lemmas -/

theorem filter_entry_false_of_output (out? : Option String) (e : Entry)
    (h : matchesOutputFile out? e = true) : filter_entry out? e = false := by
  simp [filter_entry, h]

theorem filter_entry_false_of_lock (out? : Option String) (e : Entry)
    (h : matchesLockFile e = true) : filter_entry out? e = false := by
  simp [filter_entry, h]

theorem notMem_walkerYield {ign : Entry → Bool} {out? : Option String}
    {cands : List WalkItem} {e : Entry} (h : filter_entry out? e = false) :
    Except.ok e ∉ walkerYield ign out? cands := by
  intro hmem
  unfold walkerYield at hmem
  have hp := (List.mem_filter.mp hmem).2
  simp [h] at hp

theorem walkerYield_filter_eq (ign : Entry → Bool) (out? : Option String)
    (cands : List WalkItem) (good : WalkItem → Bool)
    (hok : ∀ e : Entry, good (Except.ok e) = false → filter_entry out? e = false)
    (herr : ∀ msg : String, good (Except.error msg) = true) :
    walkerYield ign out? (cands.filter good) = walkerYield ign out? cands := by
  unfold walkerYield
  rw [List.filter_filter]
  apply List.filter_congr
  intro it _
  cases it with
  | error msg => simp [herr msg]
  | ok e =>
    cases hgood : good (Except.ok e) with
    | true => simp
    | false => simp [hok e hgood]

theorem generate_markdown_filter_eq (ign : Entry → Bool) (root : String)
    (out? : Option String) (cands : List WalkItem) (good : WalkItem → Bool)
    (hok : ∀ e : Entry, good (Except.ok e) = false → filter_entry out? e = false)
    (herr : ∀ msg : String, good (Except.error msg) = true) :
    generate_markdown ign root out? (cands.filter good) =
      generate_markdown ign root out? cands := by
  unfold generate_markdown
  rw [walkerYield_filter_eq ign out? cands good hok herr]

theorem string_foldl_append_init (l : List String) (s : String) :
    l.foldl (fun r t => r ++ t) s = s ++ l.foldl (fun r t => r ++ t) "" := by
  induction l generalizing s with
  | nil => simp [List.foldl_nil]
  | cons x xs ih =>
    simp only [List.foldl_cons]
    rw [ih (s ++ x), ih ("" ++ x)]
    simp [String.append_assoc]

theorem string_join_append (a b : List String) :
    String.join (a ++ b) = String.join a ++ String.join b := by
  unfold String.join
  rw [List.foldl_append, string_foldl_append_init b (List.foldl _ "" a)]

theorem generate_markdown_append (ign : Entry → Bool) (root : String)
    (out? : Option String) (l1 l2 : List WalkItem) :
    generate_markdown ign root out? (l1 ++ l2) =
      ((generate_markdown ign root out? l1).1 ++ (generate_markdown ign root out? l2).1,
       (generate_markdown ign root out? l1).2 ++ (generate_markdown ign root out? l2).2) := by
  unfold generate_markdown walkerYield
  simp [List.filter_append, List.map_append, string_join_append]

theorem splitOnChar_ne_nil (sep : Char) (cs : List Char) :
    splitOnChar sep cs ≠ [] := by
  cases cs with
  | nil => simp [splitOnChar]
  | cons c cs =>
    simp only [splitOnChar]
    split
    · simp
    · split <;> simp

theorem splitOnChar_not_mem (sep : Char) (cs : List Char) :
    ∀ p ∈ splitOnChar sep cs, sep ∉ p := by
  induction cs with
  | nil =>
    intro p hp
    simp only [splitOnChar, List.mem_singleton] at hp
    subst hp; simp
  | cons c cs ih =>
    intro p hp
    simp only [splitOnChar] at hp
    by_cases hc : c = sep
    · rw [if_pos hc] at hp
      rcases List.mem_cons.mp hp with rfl | hp
      · simp
      · exact ih p hp
    · rw [if_neg hc] at hp
      cases hsp : splitOnChar sep cs with
      | nil => exact absurd hsp (splitOnChar_ne_nil sep cs)
      | cons l ls =>
        rw [hsp] at hp
        rcases List.mem_cons.mp hp with rfl | hp
        · have hl : sep ∉ l := ih l (by rw [hsp]; exact List.mem_cons_self l ls)
          simp only [List.mem_cons, not_or]
          exact ⟨fun h => hc h.symm, hl⟩
        · exact ih p (by rw [hsp]; exact List.mem_cons_of_mem _ hp)

theorem splitOnChar_append_sep (sep : Char) (cs : List Char) :
    splitOnChar sep (cs ++ [sep]) = splitOnChar sep cs ++ [[]] := by
  induction cs with
  | nil => simp [splitOnChar]
  | cons c cs ih =>
    simp only [List.cons_append, splitOnChar, List.append_eq]
    by_cases hc : c = sep
    · rw [if_pos hc, if_pos hc, ih]
      simp
    · rw [if_neg hc, if_neg hc, ih]
      cases hsp : splitOnChar sep cs with
      | nil => exact absurd hsp (splitOnChar_ne_nil sep cs)
      | cons l ls => simp

theorem splitOnChar_last_empty (sep : Char) (cs : List Char)
    (h : (splitOnChar sep cs).getLast? = some []) :
    cs = [] ∨ cs.getLast? = some sep := by
  induction cs with
  | nil => exact Or.inl rfl
  | cons c cs ih =>
    right
    simp only [splitOnChar] at h
    by_cases hc : c = sep
    · rw [if_pos hc] at h
      cases hsp : splitOnChar sep cs with
      | nil => exact absurd hsp (splitOnChar_ne_nil sep cs)
      | cons l ls =>
        rw [hsp, List.getLast?_cons_cons] at h
        rcases ih (hsp ▸ h) with rfl | hlast
        · simp [hc]
        · cases hcs : cs with
          | nil => subst hcs; simp at hlast
          | cons d ds =>
            rw [List.getLast?_cons_cons, ← hcs]
            exact hlast
    · rw [if_neg hc] at h
      cases hsp : splitOnChar sep cs with
      | nil => exact absurd hsp (splitOnChar_ne_nil sep cs)
      | cons l ls =>
        rw [hsp] at h
        cases hls : ls with
        | nil =>
          rw [hls] at h
          simp at h
        | cons m ms =>
          rw [hls, List.getLast?_cons_cons] at h
          have h' : (splitOnChar sep cs).getLast? = some [] := by
            rw [hsp, hls, List.getLast?_cons_cons]
            exact h
          rcases ih h' with rfl | hlast
          · rw [show splitOnChar sep ([] : List Char) = [[]] from rfl] at hsp
            rw [hls] at hsp
            simp at hsp
          · cases hcs : cs with
            | nil => subst hcs; simp at hlast
            | cons d ds =>
              rw [List.getLast?_cons_cons, ← hcs]
              exact hlast

theorem splitOnChar_cons (sep c : Char) (cs : List Char) :
    splitOnChar sep (c :: cs) =
      if c = sep then [] :: splitOnChar sep cs
      else
        match splitOnChar sep cs with
        | [] => [[c]]
        | l :: ls => (c :: l) :: ls := rfl

theorem linesMap_concat_empty (ps : List (List Char)) :
    linesMap (ps ++ [[]]) = ps.map stripTrailingCR := by
  induction ps with
  | nil => rfl
  | cons p rest ih =>
    cases rest with
    | nil => rfl
    | cons q rest2 =>
      simp only [List.cons_append, List.append_eq, linesMap, List.map_cons]
      simp only [List.cons_append, List.append_eq] at ih
      rw [ih, List.map_cons]

theorem linesMap_append_singleton (ps : List (List Char)) (L : List Char)
    (hne : L ≠ []) :
    linesMap (ps ++ [L]) = ps.map stripTrailingCR ++ [L] := by
  induction ps with
  | nil => simp [linesMap, hne]
  | cons p rest ih =>
    cases rest with
    | nil => simp [linesMap, hne]
    | cons q rest2 =>
      simp only [List.cons_append, List.append_eq, linesMap, List.map_cons]
      simp only [List.cons_append, List.append_eq] at ih
      rw [ih, List.map_cons, List.cons_append]

theorem linesMap_mem (ps : List (List Char)) :
    ∀ q ∈ linesMap ps, ∃ p ∈ ps, q = stripTrailingCR p ∨ q = p := by
  induction ps with
  | nil =>
    intro q hq
    simp [linesMap] at hq
  | cons p rest ih =>
    intro q hq
    cases rest with
    | nil =>
      simp only [linesMap] at hq
      split at hq
      · simp at hq
      · simp at hq
        exact ⟨p, List.mem_cons_self p [], Or.inr hq⟩
    | cons r rest2 =>
      simp only [linesMap] at hq
      rcases List.mem_cons.mp hq with rfl | hq
      · exact ⟨p, List.mem_cons_self _ _, Or.inl rfl⟩
      · obtain ⟨p', hp', hor⟩ := ih q hq
        exact ⟨p', List.mem_cons_of_mem _ hp', hor⟩

theorem splitOnChar_last_of_ne (sep : Char) :
    ∀ cs : List Char, cs ≠ [] → cs.getLast? ≠ some sep →
    ∃ (qs : List (List Char)) (L : List Char),
      splitOnChar sep cs = qs ++ [L] ∧ L ≠ [] ∧ L.getLast? = cs.getLast? := by
  intro cs
  induction cs with
  | nil =>
    intro h _
    exact absurd rfl h
  | cons c cs ih =>
    intro _ hlast
    cases hcs : cs with
    | nil =>
      subst hcs
      have hc : c ≠ sep := fun h => hlast (by simp [h])
      refine ⟨[], [c], ?_, by simp, rfl⟩
      rw [splitOnChar_cons, if_neg hc]
      rfl
    | cons d ds =>
      subst hcs
      have hlast' : (d :: ds).getLast? ≠ some sep := by
        rwa [List.getLast?_cons_cons] at hlast
      obtain ⟨qs, L, hsp, hLne, hLlast⟩ := ih (by simp) hlast'
      by_cases hc : c = sep
      · refine ⟨[] :: qs, L, ?_, hLne, ?_⟩
        · rw [splitOnChar_cons, if_pos hc, hsp, List.cons_append]
        · rw [hLlast, List.getLast?_cons_cons]
      · cases qs with
        | nil =>
          rw [List.nil_append] at hsp
          refine ⟨[], c :: L, ?_, by simp, ?_⟩
          · rw [splitOnChar_cons, if_neg hc, hsp, List.nil_append]
          · cases L with
            | nil => exact absurd rfl hLne
            | cons a as =>
              rw [List.getLast?_cons_cons, List.getLast?_cons_cons, hLlast]
        | cons q0 qs0 =>
          rw [List.cons_append] at hsp
          refine ⟨(c :: q0) :: qs0, L, ?_, hLne, ?_⟩
          · rw [splitOnChar_cons, if_neg hc, hsp, List.cons_append]
          · rw [hLlast, List.getLast?_cons_cons]

theorem rustLines_no_newline (s : String) :
    ∀ l ∈ rustLines s, '\n' ∉ l.data := by
  intro l hl
  unfold rustLines at hl
  rw [List.mem_map] at hl
  obtain ⟨q, hq, rfl⟩ := hl
  obtain ⟨p, hp, hor⟩ := linesMap_mem _ q hq
  have hn := splitOnChar_not_mem '\n' s.data p hp
  show '\n' ∉ q
  rcases hor with rfl | rfl
  · unfold stripTrailingCR
    split
    · exact fun h => hn (List.dropLast_subset _ h)
    · exact hn
  · exact hn

theorem rustLines_optional_final_newline (s : String) (h1 : s.data ≠ [])
    (h2 : s.data.getLast? ≠ some '\n') (h3 : s.data.getLast? ≠ some '\r') :
    rustLines (s ++ "\n") = rustLines s := by
  unfold rustLines
  rw [String.data_append, show ("\n" : String).data = ['\n'] from rfl]
  obtain ⟨qs, L, hsp, hLne, hLlast⟩ := splitOnChar_last_of_ne '\n' s.data h1 h2
  rw [splitOnChar_append_sep, hsp, linesMap_concat_empty,
    linesMap_append_singleton qs L hLne, List.map_append]
  have hL : stripTrailingCR L = L := by
    unfold stripTrailingCR
    rw [if_neg]
    rw [hLlast]
    exact h3
  simp [hL]

/-! ## Claim theorems -/

/-- C1: when the destination is a filesystem path whose canonical identity
`outPath` was computed before traversal, no traversal entry whose canonical
identity equals `outPath` is ever rendered into the output (erasing all
such candidates leaves the generated document and diagnostics unchanged,
and no such entry is yielded by the filtered walk), while an entry whose
canonical identity cannot be determined is not excluded by this rule (the
filter treats it exactly as if no output path were being filtered). -/
theorem self_exclusion_invariant (outPath root : String) (ign : Entry → Bool)
    (cands : List WalkItem) :
    (generate_markdown ign root (some outPath)
        (cands.filter (fun it => match it with
          | Except.ok e => !(e.canonical == some outPath)
          | Except.error _ => true)) =
      generate_markdown ign root (some outPath) cands)
    ∧ (∀ e : Entry, e.canonical = some outPath →
        Except.ok e ∉ walkerYield ign (some outPath) cands)
    ∧ (∀ e : Entry, e.canonical = none →
        filter_entry (some outPath) e = filter_entry none e) := by
  refine ⟨?_, ?_, ?_⟩
  · apply generate_markdown_filter_eq
    · intro e he
      simp only [Bool.not_eq_false'] at he
      apply filter_entry_false_of_output
      have hc : e.canonical = some outPath := by
        simpa using he
      simp [matchesOutputFile, hc]
    · intro msg
      rfl
  · intro e he
    apply notMem_walkerYield
    apply filter_entry_false_of_output
    simp [matchesOutputFile, he]
  · intro e he
    simp [filter_entry, matchesOutputFile, he]

/-- C1 witness: a concrete entry whose canonical path equals the computed
output path is not yielded, and a concrete entry whose canonicalization
failed passes the output-file filter unchanged. -/
theorem self_exclusion_invariant_witness :
    (Except.ok { path := "/p/out.md", canonical := some "/p/out.md",
                 fileType := some FileType.file, fileNameStr := some "out.md",
                 readResult := ReadResult.ok [] : Entry } ∉
      walkerYield (fun _ => true) (some "/p/out.md")
        [Except.ok { path := "/p/out.md", canonical := some "/p/out.md",
                     fileType := some FileType.file, fileNameStr := some "out.md",
                     readResult := ReadResult.ok [] : Entry }])
    ∧ filter_entry (some "/p/out.md")
        { path := "/p/broken", canonical := none, fileType := some FileType.file,
          fileNameStr := some "broken", readResult := ReadResult.ok [] } =
      filter_entry none
        { path := "/p/broken", canonical := none, fileType := some FileType.file,
          fileNameStr := some "broken", readResult := ReadResult.ok [] } :=
  ⟨(self_exclusion_invariant "/p/out.md" "/p" (fun _ => true) _).2.1 _ rfl,
   (self_exclusion_invariant "/p/out.md" "/p" (fun _ => true) []).2.2 _ rfl⟩

/-- C4: in clipboard mode, a buffer that is not valid UTF-8 makes the run
abort with an error before any clipboard transport is attempted (the list
of transported strings is empty), and any string that is ever handed to
clipboard transport is exactly the full strict UTF-8 decoding of the
generated buffer. -/
theorem clipboard_utf8_precondition (env : ClipboardEnv) (buffer : List UInt8) :
    (utf8DecodeString buffer = none →
      clipboard_branch env buffer =
        (RunResult.error "Generated content is not valid UTF-8", []))
    ∧ (∀ s : String, s ∈ (clipboard_branch env buffer).2 →
        utf8DecodeString buffer = some s) := by
  rcases env with ⟨ne, se⟩
  constructor
  · intro h
    simp [clipboard_branch, h]
  · intro s hs
    unfold clipboard_branch at hs
    cases hdec : utf8DecodeString buffer with
    | none =>
      rw [hdec] at hs
      simp at hs
    | some t =>
      rw [hdec] at hs
      cases ne with
      | some e => simp at hs
      | none =>
        cases se with
        | some e =>
          simp at hs
          subst hs
          rfl
        | none =>
          simp at hs
          subst hs
          rfl

/-- C4 witness: the concrete invalid buffer `[0xFF]` aborts with the
UTF-8 error and transports nothing. -/
theorem clipboard_utf8_precondition_witness :
    clipboard_branch { newErr := none, setTextErr := none } [255] =
      (RunResult.error "Generated content is not valid UTF-8", []) :=
  (clipboard_utf8_precondition { newErr := none, setTextErr := none } [255]).1
    (by decide)

/-- C5: a traversal entry that is a file whose basename matches one of the
fixed lockfile names is excluded from the output regardless of the ignore
policy (erasing all lockfile-matching candidates leaves the document
unchanged, and no such entry is ever yielded), while a directory is never
matched by the lockfile rule even when its name is in the set. -/
theorem lockfile_exclusion (ign : Entry → Bool) (root : String)
    (out? : Option String) (cands : List WalkItem) :
    (generate_markdown ign root out?
        (cands.filter (fun it => match it with
          | Except.ok e => !(matchesLockFile e)
          | Except.error _ => true)) =
      generate_markdown ign root out? cands)
    ∧ (∀ (e : Entry) (n : String),
        (e.fileType.map FileType.is_file).getD false = true →
        e.fileNameStr = some n → n ∈ LOCK_FILES →
        Except.ok e ∉ walkerYield ign out? cands)
    ∧ (∀ e : Entry, e.fileType = some FileType.dir → matchesLockFile e = false) := by
  refine ⟨?_, ?_, ?_⟩
  · apply generate_markdown_filter_eq
    · intro e he
      simp only [Bool.not_eq_false'] at he
      exact filter_entry_false_of_lock out? e he
    · intro msg
      rfl
  · intro e n hft hname hmem
    apply notMem_walkerYield
    apply filter_entry_false_of_lock
    simp only [matchesLockFile, hft, if_true, hname]
    exact List.elem_eq_true_of_mem hmem
  · intro e he
    simp [matchesLockFile, he, FileType.is_file]

/-- C5 witness: a concrete `Cargo.lock` file entry is not yielded even
though the ignore policy accepts everything, and a concrete directory
named `Cargo.lock` is not matched by the lockfile rule. -/
theorem lockfile_exclusion_witness :
    (Except.ok { path := "/p/Cargo.lock", canonical := some "/p/Cargo.lock",
                 fileType := some FileType.file, fileNameStr := some "Cargo.lock",
                 readResult := ReadResult.ok [] : Entry } ∉
      walkerYield (fun _ => true) none
        [Except.ok { path := "/p/Cargo.lock", canonical := some "/p/Cargo.lock",
                     fileType := some FileType.file, fileNameStr := some "Cargo.lock",
                     readResult := ReadResult.ok [] : Entry }])
    ∧ matchesLockFile
        { path := "/p/Cargo.lock", canonical := some "/p/Cargo.lock",
          fileType := some FileType.dir, fileNameStr := some "Cargo.lock",
          readResult := ReadResult.err "Is a directory" } = false :=
  ⟨(lockfile_exclusion (fun _ => true) "/p" none _).2.1 _ "Cargo.lock" rfl rfl
      (by decide),
   (lockfile_exclusion (fun _ => true) "/p" none []).2.2 _ rfl⟩

/-- C7: when reading a file's physical path fails, the rendered section's
body is the placeholder naming the read error, the diagnostic naming the
path and error goes to the side channel and not into the document, and
generation of a walk distributes over concatenation, so the failure leaves
every other candidate's rendering unchanged and the run continues. -/
theorem read_failure_recovered (rp fp msg root : String) (ign : Entry → Bool)
    (out? : Option String) (l1 l2 : List WalkItem) :
    process_file rp fp (ReadResult.err msg) =
      ("\n## `" ++ rp ++ "`\n\n" ++ "```\n(Error reading file: " ++ msg ++ ")\n```\n",
       ["Warning: Failed to read file " ++ fp ++ ": " ++ msg])
    ∧ (generate_markdown ign root out? (l1 ++ l2)).1 =
        (generate_markdown ign root out? l1).1 ++ (generate_markdown ign root out? l2).1
    ∧ (generate_markdown ign root out? (l1 ++ l2)).2 =
        (generate_markdown ign root out? l1).2 ++ (generate_markdown ign root out? l2).2 := by
  refine ⟨rfl, ?_, ?_⟩
  · rw [generate_markdown_append]
  · rw [generate_markdown_append]

/-- C8: a file with zero bytes is classified as text and rendered as a
fenced block carrying the extension-derived tag with an empty body, not
the binary placeholder and not an error placeholder, with no diagnostic. -/
theorem empty_file_rendered_as_text (rp fp : String) :
    inspect [] = ContentType.TEXT
    ∧ process_file rp fp (ReadResult.ok []) =
        ("\n## `" ++ rp ++ "`\n\n" ++ "```" ++ get_language_tag rp ++ "\n" ++ "```\n",
         []) := by
  constructor
  · rfl
  · simp only [process_file]
    rw [if_neg (by decide : ¬ (inspect ([] : List UInt8) = ContentType.BINARY))]
    rw [show emitLines (rustLines (fromUtf8Lossy [])) = "" from rfl]
    simp

/-- C10: the lockfile rule compares the basename for exact string equality
against the fixed set: for a file entry the rule matches exactly when the
UTF-8 basename is literally in `LOCK_FILES`; differently-cased names such
as `cargo.lock` or `CARGO.LOCK` never match, and a basename that is not
valid UTF-8 never matches. -/
theorem lockfile_exact_basename (e : Entry) :
    (∀ n : String, e.fileNameStr = some n →
      (matchesLockFile e = true ↔
        ((e.fileType.map FileType.is_file).getD false = true ∧ n ∈ LOCK_FILES)))
    ∧ (e.fileNameStr = some "cargo.lock" → matchesLockFile e = false)
    ∧ (e.fileNameStr = some "CARGO.LOCK" → matchesLockFile e = false)
    ∧ (e.fileNameStr = none → matchesLockFile e = false) := by
  refine ⟨?_, ?_, ?_, ?_⟩
  · intro n hn
    by_cases hft : (e.fileType.map FileType.is_file).getD false = true
    · constructor
      · intro h
        refine ⟨hft, ?_⟩
        have h' : LOCK_FILES.contains n = true := by
          simpa only [matchesLockFile, hft, if_true, hn] using h
        exact List.elem_iff.mp h'
      · intro h
        simp only [matchesLockFile, hft, if_true, hn]
        exact List.elem_eq_true_of_mem h.2
    · simp [matchesLockFile, hft]
  · intro hn
    simp only [matchesLockFile, hn]
    split
    · decide
    · rfl
  · intro hn
    simp only [matchesLockFile, hn]
    split
    · decide
    · rfl
  · intro hn
    simp [matchesLockFile, hn]

/-- C10 witness: a concrete file entry named `cargo.lock` is not matched
by the lockfile rule, while the identically-shaped entry named
`Cargo.lock` is. -/
theorem lockfile_exact_basename_witness :
    matchesLockFile
        { path := "/p/cargo.lock", canonical := some "/p/cargo.lock",
          fileType := some FileType.file, fileNameStr := some "cargo.lock",
          readResult := ReadResult.ok [] } = false
    ∧ matchesLockFile
        { path := "/p/Cargo.lock", canonical := some "/p/Cargo.lock",
          fileType := some FileType.file, fileNameStr := some "Cargo.lock",
          readResult := ReadResult.ok [] } = true :=
  ⟨(lockfile_exact_basename _).2.1 rfl,
   ((lockfile_exact_basename _).1 "Cargo.lock" rfl).mpr ⟨rfl, by decide⟩⟩

theorem string_join_cons (s : String) (rest : List String) :
    String.join (s :: rest) = s ++ String.join rest := by
  unfold String.join
  rw [List.foldl_cons, string_foldl_append_init rest ("" ++ s)]
  simp

theorem emitLines_cons (l : String) (ls : List String) :
    emitLines (l :: ls) = (l ++ "\n") ++ emitLines ls := by
  unfold emitLines
  rw [List.map_cons, string_join_cons]

theorem emitLines_empty_or_newline (ls : List String) :
    emitLines ls = "" ∨ ∃ pre : String, emitLines ls = pre ++ "\n" := by
  induction ls with
  | nil => exact Or.inl rfl
  | cons l ls ih =>
    right
    rw [emitLines_cons]
    rcases ih with h | ⟨pre, h⟩
    · rw [h, String.append_empty]
      exact ⟨l, rfl⟩
    · rw [h]
      exact ⟨l ++ "\n" ++ pre, by simp [String.append_assoc]⟩

theorem string_merge_right (x a b c : String) (h : a ++ b = c) :
    (x ++ a) ++ b = x ++ c := by
  rw [String.append_assoc, h]

set_option maxHeartbeats 1000000 in
set_option linter.unusedTactic false in
theorem langOfLowerExt_unknown (s : String) (h : s ∉ knownExtensions) :
    langOfLowerExt s = "" := by
  unfold langOfLowerExt
  split <;> first | rfl | (subst_vars; revert h; decide)

/-- C6: the language tagger is a total function of the extension alone: it
is insensitive to the letter case of the extension, absent extensions and
extensions outside the recognized table always yield the empty tag (there
is no failure outcome), and the distinct extensions `js` and `mjs` map to
the same tag. -/
theorem language_tagger_contract (e1 e2 e : String) :
    (rustToLowercase e1 = rustToLowercase e2 →
      tagOfExt (some e1) = tagOfExt (some e2))
    ∧ tagOfExt none = ""
    ∧ (rustToLowercase e ∉ knownExtensions → tagOfExt (some e) = "")
    ∧ tagOfExt (some "js") = "javascript"
    ∧ tagOfExt (some "mjs") = "javascript" := by
  refine ⟨?_, rfl, ?_, rfl, rfl⟩
  · intro h
    simp [tagOfExt, h]
  · intro h
    simp [tagOfExt, langOfLowerExt_unknown _ h]

/-- C6 witness: concrete instances of case-insensitivity and of the empty
tag on an unknown extension. -/
theorem language_tagger_contract_witness :
    tagOfExt (some "RS") = tagOfExt (some "rs") ∧ tagOfExt (some "xyz") = "" :=
  ⟨(language_tagger_contract "RS" "rs" "xyz").1 (by decide),
   (language_tagger_contract "RS" "rs" "xyz").2.2.1 (by decide)⟩

/-- C2 (amended): for every text-classified content, the rendered body is
the lossily-decoded content re-emitted one line per output line — each
emitted line is newline-free and is terminated by exactly one newline, so
newline and carriage-return-newline line terminators are both re-emitted
in the single `\n` style, and when the decoded content does not end in a
line terminator (its last character is neither a newline nor a bare
carriage return, which Rust 1.60 `str::lines` keeps as content) a final
terminator is added — but embedded fence delimiter lines are re-emitted
verbatim, without sanitization. -/
theorem text_body_line_reemission (rp fp : String) (content : List UInt8)
    (h : inspect content ≠ ContentType.BINARY) :
    (process_file rp fp (ReadResult.ok content)).1 =
      "\n## `" ++ rp ++ "`\n\n" ++ "```" ++ get_language_tag rp ++ "\n"
        ++ emitLines (rustLines (fromUtf8Lossy content)) ++ "```\n"
    ∧ (∀ l ∈ rustLines (fromUtf8Lossy content), '\n' ∉ l.data)
    ∧ (∀ t : String, t.data ≠ [] → t.data.getLast? ≠ some '\n' →
        t.data.getLast? ≠ some '\r' → rustLines (t ++ "\n") = rustLines t) := by
  refine ⟨?_, rustLines_no_newline _, rustLines_optional_final_newline⟩
  simp only [process_file]
  rw [if_neg h]

/-- C2 witness: the amended equation at a concrete text file whose content
mixes a carriage-return-newline terminator with a missing final
terminator, plus the final-terminator normalization at a concrete
terminator-free line. -/
theorem text_body_line_reemission_witness :
    ((process_file "n.txt" "/p/n.txt" (ReadResult.ok (asciiBytes "a\r\nb"))).1 =
      "\n## `n.txt`\n\n" ++ "```" ++ get_language_tag "n.txt" ++ "\n"
        ++ emitLines (rustLines (fromUtf8Lossy (asciiBytes "a\r\nb"))) ++ "```\n")
    ∧ rustLines ("b" ++ "\n") = rustLines "b" :=
  ⟨(text_body_line_reemission "n.txt" "/p/n.txt" (asciiBytes "a\r\nb") (by decide)).1,
   (text_body_line_reemission "n.txt" "/p/n.txt" (asciiBytes "a\r\nb")
      (by decide)).2.2 "b" (by decide) (by decide) (by decide)⟩

/-- C2 counterexample: a text file whose content is the single line made of
three backticks is re-emitted verbatim, so the rendered section holds two
bare fence delimiter lines — the embedded one and the section's own closing
fence — and a fence-matching reader closes the block at the embedded
delimiter, before the section's closing fence: fenced-block delimiters
embedded in the source file CAN prematurely terminate the outer fence,
refuting the claim's safety clause. -/
theorem fence_delimiter_not_sanitized :
    (process_file "x.md" "/p/x.md" (ReadResult.ok (asciiBytes "```"))).1 =
      "\n## `x.md`\n\n```markdown\n```\n```\n"
    ∧ bareFenceLineCount
        ((process_file "x.md" "/p/x.md" (ReadResult.ok (asciiBytes "```"))).1) = 2 := by
  constructor <;> decide

/-- C3: on the round-trip scenario the generated document is exactly the
section for `a.rs` (fence tagged `rust`, body `fn main() {}`) followed by
the section for `b.png` (the fixed binary placeholder body), and no
section mentioning `Cargo.lock` occurs anywhere in it. -/
theorem roundtrip_scenario :
    (generate_markdown (fun _ => true) scenarioRoot none scenarioEntries).1 =
      "\n## `a.rs`\n\n```rust\nfn main() {}\n```\n\n## `b.png`\n\n```\n(Binary file, content omitted)\n```\n"
    ∧ containsSub "Cargo.lock".data
        ((generate_markdown (fun _ => true) scenarioRoot none scenarioEntries).1).data =
      false := by
  constructor <;> decide

/-- C9 counterexample: the emitted header wraps the relative path in
backticks, so for the concrete file `a.rs` the section is
`"\n## `a.rs`\n\n..."` and not exactly the bytes `"\n## a.rs\n\n"`
followed by a fenced block: the fifth byte of the section is a backtick
where the claimed shape forces the first byte of the relative path. -/
theorem section_header_not_plain :
    ¬ claimedSectionForm "a.rs"
        (process_file "a.rs" "/p/a.rs" (ReadResult.ok (asciiBytes "fn main() {}"))).1 := by
  intro hcl
  obtain ⟨tag, body, h⟩ := hcl
  have hsec : (process_file "a.rs" "/p/a.rs"
      (ReadResult.ok (asciiBytes "fn main() {}"))).1 =
      "\n## `a.rs`\n\n```rust\nfn main() {}\n```\n" := by decide
  rw [hsec] at h
  have h4 := congrArg (fun s : String => s.data[4]?) h
  simp only [String.data_append, List.append_assoc] at h4
  rw [List.getElem?_append_right (by decide)] at h4
  rw [List.getElem?_append_left (by decide)] at h4
  exact absurd h4 (by decide)

/-- C9 (amended): every rendered section is exactly the bytes of a
newline, `## `, the relative path wrapped in backticks, two newlines, and
then a fenced block: an opening fence line optionally carrying a language
tag, the content or placeholder body (which is newline-terminated whenever
it is nonempty), and a closing bare fence line. -/
theorem section_format (rp fp : String) (rr : ReadResult) :
    ∃ tag body : String,
      (process_file rp fp rr).1 =
        "\n## `" ++ rp ++ "`\n\n" ++ "```" ++ tag ++ "\n" ++ body ++ "```\n"
      ∧ (body = "" ∨ ∃ pre : String, body = pre ++ "\n") := by
  cases rr with
  | err msg =>
    refine ⟨"", "(Error reading file: " ++ msg ++ ")" ++ "\n", ?_,
      Or.inr ⟨"(Error reading file: " ++ msg ++ ")", rfl⟩⟩
    simp only [process_file]
    rw [String.append_empty,
      string_merge_right ("\n## `" ++ rp ++ "`\n\n") "```" "\n" "```\n" (by decide),
      String.append_assoc ("(Error reading file: " ++ msg) ")" "\n",
      show (")" : String) ++ "\n" = ")\n" from by decide,
      ← String.append_assoc ("\n## `" ++ rp ++ "`\n\n" ++ "```\n")
        ("(Error reading file: " ++ msg) ")\n",
      ← String.append_assoc ("\n## `" ++ rp ++ "`\n\n" ++ "```\n")
        "(Error reading file: " msg,
      string_merge_right ("\n## `" ++ rp ++ "`\n\n") "```\n" "(Error reading file: "
        "```\n(Error reading file: " (by decide),
      string_merge_right ("\n## `" ++ rp ++ "`\n\n" ++ "```\n(Error reading file: " ++ msg)
        ")\n" "```\n" ")\n```\n" (by decide)]
  | ok content =>
    by_cases hins : inspect content = ContentType.BINARY
    · refine ⟨"", "(Binary file, content omitted)" ++ "\n", ?_,
        Or.inr ⟨"(Binary file, content omitted)", by decide⟩⟩
      simp only [process_file]
      rw [if_pos hins,
        String.append_empty,
        string_merge_right ("\n## `" ++ rp ++ "`\n\n") "```" "\n" "```\n" (by decide),
        show ("(Binary file, content omitted)" : String) ++ "\n" =
          "(Binary file, content omitted)\n" from by decide,
        string_merge_right ("\n## `" ++ rp ++ "`\n\n") "```\n"
          "(Binary file, content omitted)\n" "```\n(Binary file, content omitted)\n"
          (by decide),
        string_merge_right ("\n## `" ++ rp ++ "`\n\n")
          "```\n(Binary file, content omitted)\n" "```\n"
          "```\n(Binary file, content omitted)\n```\n" (by decide)]
    · refine ⟨get_language_tag rp, emitLines (rustLines (fromUtf8Lossy content)), ?_,
        emitLines_empty_or_newline _⟩
      simp only [process_file]
      rw [if_neg hins]

end SourceWeaver
